import Mathlib

/-!
Verification of the ingredient-to-product resolution pipeline of the
hemkop-shopper repository, as a shallow embedding in Lean 4.

The embedding covers, faithfully to the TypeScript sources:
  - the weight regexes of src/llm.ts and src/main.ts
    (requirement text and candidate displayVolume parsing),
  - the deterministic weight selection and the LLM response parsing
    chain of selectBestProduct in src/llm.ts,
  - processIngredientDescription in src/llm.ts,
  - adjustProductQuantity and extractWeightInformation in src/main.ts,
  - the JSON-LD recipe extraction of the jsonld recipe parser
    (findRecipeData, extractIngredients, shouldExcludeIngredient and
    the ingredient filters).

JavaScript strings are modelled as Lean strings over List Char; numbers
are modelled as exact rationals; a call to the text-generation
collaborator is modelled as an input of type Except Unit String, whose
error case corresponds to a thrown transport or response error that the
enclosing try/catch of the source catches.  The stable in-place
Array.prototype.sort of ES2019 is modelled by List.mergeSort with the
boolean comparison derived from the numeric comparator.
-/

namespace HemkopSpec

/-! ## Character and string helpers (JavaScript semantics, ASCII fragment) -/

/-- Whitespace as matched by the JavaScript regex class for spaces and by
String.prototype.trim, restricted to the characters that can occur in the
inputs we reason about. -/
def jsIsSpace (c : Char) : Bool :=
  c = ' ' || c = '\t' || c = '\n' || c = '\r' ||
  c = '\x0b' || c = '\x0c' || c = '\u00A0' || c = '\uFEFF'

/-- Word characters of the JavaScript regex class used by word boundaries. -/
def isWordChar (c : Char) : Bool :=
  c.isAlpha || c.isDigit || c = '_'

/-- Lowercasing of a string, character by character (ASCII fragment of
String.prototype.toLowerCase). -/
def jsToLower (s : String) : String :=
  ⟨s.toList.map Char.toLower⟩

/-- Trim of a character list: drop whitespace from both ends, as
String.prototype.trim does. -/
def jsTrimList (cs : List Char) : List Char :=
  ((cs.dropWhile jsIsSpace).reverse.dropWhile jsIsSpace).reverse

/-- String.prototype.trim. -/
def jsTrim (s : String) : String :=
  ⟨jsTrimList s.toList⟩

/-- Numeric value of a run of decimal digits, as parseInt with radix 10. -/
def natVal (ds : List Char) : ℕ :=
  ds.foldl (fun a c => 10 * a + (c.toNat - 48)) 0

/-- Value of the fractional digit run of a decimal literal: parseFloat of
d1.d2 equals natVal d1 + fracVal d2. -/
def fracVal (ds : List Char) : ℚ :=
  (natVal ds : ℚ) / (10 : ℚ) ^ ds.length

/-- Does the list start with the given character list. -/
def listStartsWith : List Char → List Char → Bool
  | _, [] => true
  | [], _ :: _ => false
  | c :: l, d :: m => c = d && listStartsWith l m

/-- Substring containment, as String.prototype.includes. -/
def listContainsSub : List Char → List Char → Bool
  | [], sub => listStartsWith [] sub
  | c :: t, sub => listStartsWith (c :: t) sub || listContainsSub t sub

/-! ## Measurement parsing

The requirement regex of src/llm.ts line 16 and src/main.ts line 548 is
(\d+\.?\d*)\s*(g|gram|kg|kilo) with the case-insensitive flag; the
candidate regex of src/llm.ts line 35 and src/main.ts line 534 is
(\d+)\s*(g|kg), also case-insensitive.  Both are matched by a scan over
starting positions; for these patterns greedy matching without
backtracking reaches a match at a position exactly when the regex engine
does, because every backtracked continuation of a failed greedy attempt
resumes on a digit or a dot, which can start neither the whitespace run
nor a unit token. -/

/-- Multiplier of the first alternative of (g|gram|kg|kilo) that matches at
this position, case-insensitively.  The alternative g is tried first, so
gram can never be the chosen alternative; g and gram carry multiplier 1,
kg and kilo carry 1000 by the conversion on src/llm.ts lines 26 to 29. -/
def reqUnitMul (cs : List Char) : Option ℚ :=
  let l := cs.map Char.toLower
  if listStartsWith l ['g'] then some 1
  else if listStartsWith l ['k', 'g'] then some 1000
  else if listStartsWith l ['k', 'i', 'l', 'o'] then some 1000
  else none

/-- Match of the requirement pattern anchored at the current position:
one or more digits, an optional dot followed by more digits, optional
whitespace, then a unit token.  Returns the weight in grams. -/
def matchReqAt (cs : List Char) : Option ℚ :=
  let d1 := cs.takeWhile Char.isDigit
  if d1 = [] then none
  else
    let r1 := cs.dropWhile Char.isDigit
    let p :=
      match r1 with
      | '.' :: rest => (rest.takeWhile Char.isDigit, rest.dropWhile Char.isDigit)
      | _ => ([], r1)
    let r3 := p.2.dropWhile jsIsSpace
    match reqUnitMul r3 with
    | some mul => some ((natVal d1 + fracVal p.1) * mul)
    | none => none

/-- Scan for the leftmost match of the requirement pattern. -/
def scanReq : List Char → Option ℚ
  | [] => none
  | c :: rest =>
    match matchReqAt (c :: rest) with
    | some q => some q
    | none => scanReq rest

/-- Weight requirement detected in a shopping list item, in grams
(src/llm.ts lines 16 to 29, src/main.ts lines 548 to 558). -/
def parseReqWeight (s : String) : Option ℚ :=
  scanReq s.toList

/-- Multiplier of the first alternative of (g|kg) that matches at this
position, case-insensitively. -/
def prodUnitMul (cs : List Char) : Option ℕ :=
  let l := cs.map Char.toLower
  if listStartsWith l ['g'] then some 1
  else if listStartsWith l ['k', 'g'] then some 1000
  else none

/-- Match of the candidate pattern anchored at the current position:
one or more digits, optional whitespace, then g or kg.  Returns grams. -/
def matchProdAt (cs : List Char) : Option ℕ :=
  let d1 := cs.takeWhile Char.isDigit
  if d1 = [] then none
  else
    let r1 := (cs.dropWhile Char.isDigit).dropWhile jsIsSpace
    match prodUnitMul r1 with
    | some mul => some (natVal d1 * mul)
    | none => none

/-- Scan for the leftmost match of the candidate pattern. -/
def scanProd : List Char → Option ℕ
  | [] => none
  | c :: rest =>
    match matchProdAt (c :: rest) with
    | some n => some n
    | none => scanProd rest

/-- Weight of a candidate displayVolume text in grams, or none when the
restricted candidate pattern does not match (src/llm.ts lines 35 to 44). -/
def parseProdWeight (s : String) : Option ℕ :=
  scanProd s.toList

/-- Weight attributed to a candidate: the displayVolume text (an absent
field read as the empty string) parsed with the candidate pattern, with 0
for a missing match (src/llm.ts lines 32 to 50). -/
def productWeight (dv : Option String) : ℚ :=
  match parseProdWeight (dv.getD "") with
  | some w => (w : ℚ)
  | none => 0

/-! ## Candidate products and the selection algorithm -/

/-- Scraped candidate product record (src/types.ts).  The element field is
a handle into the excluded browser automation layer and carries no data
relevant to the decisions, so it is omitted here. -/
structure Product where
  title : String
  price : Option String := none
  comparePrice : Option String := none
  displayVolume : Option String := none
  quantity : ℕ := 0
deriving DecidableEq

/-- Method by which a selection decision was reached; identifies the three
return paths of selectBestProduct in src/llm.ts (deterministic weight
selection, index extracted from the LLM response, fallback to the first
candidate). -/
inductive SelectionMethod where
  | DeterministicWeight
  | LlmArbitration
  | FallbackFirst
deriving DecidableEq

/-- Pairing of each candidate with its parsed weight
(src/llm.ts lines 32 to 50). -/
def productWeights (products : List Product) : List (Product × ℚ) :=
  products.map (fun product => (product, productWeight product.displayVolume))

/-- Deterministic weight selection (src/llm.ts lines 52 to 68): filter the
candidates whose weight reaches the requested weight; if some remain, sort
them ascending by weight and take the first, else sort all candidates
descending by weight and take the first.  Array.prototype.sort is stable,
modelled by List.mergeSort; reading index 0 of an empty array yields
undefined and dereferencing it throws, which the enclosing catch turns
into a null result, modelled by the none of head?. -/
def detSelect (pws : List (Product × ℚ)) (requestedWeight : ℚ) : Option Product :=
  let validProducts := pws.filter (fun p => decide (requestedWeight ≤ p.2))
  if 0 < validProducts.length then
    ((validProducts.mergeSort (fun a b => decide (a.2 ≤ b.2))).head?).map (fun p => p.1)
  else
    ((pws.mergeSort (fun a b => decide (b.2 ≤ a.2))).head?).map (fun p => p.1)

/-! ## Parsing of the LLM response (src/llm.ts lines 127 to 170) -/

/-- Split at every newline character, keeping empty segments, as
String.prototype.split with a newline separator. -/
def splitOnNl : List Char → List (List Char)
  | [] => [[]]
  | c :: rest =>
    if c = '\n' then [] :: splitOnNl rest
    else
      match splitOnNl rest with
      | [] => [[c]]
      | l :: ls => (c :: l) :: ls

/-- First run of digits in the text, as a match of the unanchored pattern
of one or more digits, read with parseInt. -/
def firstDigitRun : List Char → Option ℕ
  | [] => none
  | c :: rest =>
    if c.isDigit then some (natVal (c :: rest.takeWhile Char.isDigit))
    else firstDigitRun rest

/-- Strategy 1 (src/llm.ts line 133): the first run of digits on the last
line of the response whose trimmed content is non-empty. -/
def strategy1 (text : List Char) : Option ℕ :=
  match ((splitOnNl text).filter (fun l => 0 < (jsTrimList l).length)).getLast? with
  | none => none
  | some last => firstDigitRun last

/-- Match of the case-insensitive pattern Product, one or more whitespace
characters, then digits, anchored at the current position
(src/llm.ts line 143). -/
def matchProductPhraseAt (cs : List Char) : Option ℕ :=
  if listStartsWith (cs.map Char.toLower) ['p', 'r', 'o', 'd', 'u', 'c', 't'] then
    let r1 := cs.drop 7
    if r1.takeWhile jsIsSpace = [] then none
    else
      let ds := (r1.dropWhile jsIsSpace).takeWhile Char.isDigit
      if ds = [] then none else some (natVal ds)
  else none

/-- Strategy 2 (src/llm.ts line 143): leftmost occurrence of the phrase
Product N anywhere in the response. -/
def strategy2 : List Char → Option ℕ
  | [] => none
  | c :: rest =>
    match matchProductPhraseAt (c :: rest) with
    | some n => some n
    | none => strategy2 rest

/-- Strategy 3 (src/llm.ts line 153): the whole response is a bare single
digit between 1 and 9. -/
def strategy3 (text : List Char) : Option ℕ :=
  match text with
  | [c] => if '1' ≤ c ∧ c ≤ '9' then some (c.toNat - 48) else none
  | _ => none

/-- Scan for the leftmost run of digits delimited by word boundaries
(src/llm.ts line 163).  The flag records whether the preceding character
is a word character; a candidate run is accepted when the character after
it, if any, is not a word character. -/
def scanBoundedNumber : Bool → List Char → Option ℕ
  | _, [] => none
  | prev, c :: rest =>
    if c.isDigit && !prev then
      let after := rest.dropWhile Char.isDigit
      if after.head?.all (fun d => !isWordChar d) then
        some (natVal (c :: rest.takeWhile Char.isDigit))
      else scanBoundedNumber (isWordChar c) rest
    else scanBoundedNumber (isWordChar c) rest

/-- Strategy 4 (src/llm.ts line 163): any integer token anywhere in the
response, delimited by word boundaries. -/
def strategy4 (text : List Char) : Option ℕ :=
  scanBoundedNumber false text

/-- Validation applied to every extracted number N (src/llm.ts lines 135,
145, 155, 165): the zero-based index N minus 1 is a selection only when
it lies within the candidate list. -/
def validateIndex (n : ℕ) (extracted : ℕ) : Option ℕ :=
  let i : ℤ := (extracted : ℤ) - 1
  if 0 ≤ i ∧ i < (n : ℤ) then some i.toNat else none

/-- The ordered extraction chain of src/llm.ts lines 131 to 170: each
strategy is consulted only when the previous ones produced no valid
in-range index. -/
def parseProductSelection (n : ℕ) (text : List Char) : Option ℕ :=
  match (strategy1 text).bind (validateIndex n) with
  | some i => some i
  | none =>
    match (strategy2 text).bind (validateIndex n) with
    | some i => some i
    | none =>
      match (strategy3 text).bind (validateIndex n) with
      | some i => some i
      | none => (strategy4 text).bind (validateIndex n)

/-- selectBestProduct (src/llm.ts lines 10 to 184).  The collaborator call
is an input: an error value corresponds to a thrown transport or response
error, which the catch on lines 180 to 183 turns into a null result.  When
a weight requirement is detected the deterministic path decides without
consulting the collaborator; otherwise the trimmed response text runs
through the extraction chain, an extracted index selects that candidate,
and with no valid index the first candidate, if any, is the fallback.
The second component records which return path produced the decision. -/
def selectBestProduct (products : List Product) (shoppingListItem : String)
    (llm : Except Unit String) : Option (Product × SelectionMethod) :=
  match parseReqWeight shoppingListItem with
  | some requestedWeight =>
    (detSelect (productWeights products) requestedWeight).map
      (fun p => (p, SelectionMethod.DeterministicWeight))
  | none =>
    match llm with
    | .error _ => none
    | .ok content =>
      let responseText := jsTrimList content.toList
      match parseProductSelection products.length responseText with
      | some i => (products[i]?).map (fun p => (p, SelectionMethod.LlmArbitration))
      | none =>
        match products with
        | [] => none
        | p :: _ => some (p, SelectionMethod.FallbackFirst)

/-- processIngredientDescription (src/llm.ts lines 191 to 226): the trimmed
collaborator response, or on a thrown error the raw ingredient unchanged. -/
def processIngredientDescription (ingredient : String)
    (llm : Except Unit String) : String :=
  match llm with
  | .ok content => jsTrim content
  | .error _ => ingredient

/-! ## Quantity adjustment (src/main.ts lines 480 to 561) -/

/-- extractWeightInformation (src/main.ts lines 529 to 561): the unit
weight from the candidate displayVolume via the candidate pattern, the
required weight from the shopping list item via the requirement pattern,
both 0 when no match. -/
def extractWeightInformation (product : Product) (shoppingListItem : String) : ℚ × ℚ :=
  let unitWeight : ℚ :=
    match product.displayVolume with
    | some dv =>
      match parseProdWeight dv with
      | some w => (w : ℚ)
      | none => 0
    | none => 0
  let requiredWeight : ℚ :=
    match parseReqWeight shoppingListItem with
    | some r => r
    | none => 0
  (unitWeight, requiredWeight)

/-- adjustProductQuantity (src/main.ts lines 480 to 521), entered with the
quantity already set to 1 by the buy click.  The plus button flag models
whether the external page offers the increase-quantity control; without it
the function returns early.  With both weights known the loop requests
ceil of required over unit minus 1 clicks, incrementing the in-memory
quantity once per requested click; the returned pair carries the updated
product and the number of requested clicks. -/
def adjustProductQuantity (hasPlusButton : Bool) (product : Product)
    (shoppingListItem : String) : Product × ℕ :=
  if hasPlusButton then
    let uw := (extractWeightInformation product shoppingListItem).1
    let rw := (extractWeightInformation product shoppingListItem).2
    if uw = 0 ∨ rw = 0 then (product, 0)
    else
      let optimalQuantity : ℤ := ⌈rw / uw⌉
      let clicksNeeded : ℤ := optimalQuantity - 1
      let k : ℕ := clicksNeeded.toNat
      ({ product with quantity := product.quantity + k }, k)
  else (product, 0)

/-! ## JSON-LD recipe extraction (jsonldRecipeParser)

Structured-data blocks are the values produced by JSON.parse on the
ld+json script contents, with blocks that are themselves arrays spread
into the sequence.  Objects are association lists in insertion order with
unique keys, as JSON.parse produces them.  Reading a property of null
throws in JavaScript; computations that can throw return Except, and the
outer catch of extractIngredientsFromJsonLd turns a thrown error into an
empty result. -/

/-- Parsed JSON values. -/
inductive Json where
  | null : Json
  | bool : Bool → Json
  | num : ℚ → Json
  | str : String → Json
  | arr : List Json → Json
  | obj : List (String × Json) → Json

/-- Lookup of a property in an association list. -/
def lookupKV : List (String × Json) → String → Option Json
  | [], _ => none
  | (k, v) :: rest, key => if k = key then some v else lookupKV rest key

/-- Property access on a JSON value other than null: objects look up the
key, every non-object (including arrays, which have no such named
property after JSON.parse) yields undefined, modelled as none. -/
def getProp (j : Json) (key : String) : Option Json :=
  match j with
  | .obj kvs => lookupKV kvs key
  | _ => none

/-- The top-level type test of findRecipeData: the type discriminator is
the string Recipe, or an array containing that string.  Reading the
discriminator of a null block throws. -/
def isRecipeTop (j : Json) : Except Unit Bool :=
  match j with
  | .null => .error ()
  | _ =>
    .ok (match getProp j "@type" with
      | some (.str s) => s = "Recipe"
      | some (.arr xs) => xs.any (fun x =>
          match x with
          | .str s => s = "Recipe"
          | _ => false)
      | _ => false)

/-- Total variant of the top-level type test, with null blocks simply not
matching; used to compare the code against the behaviour the spec
describes, where the scan never throws. -/
def isRecipeTopSpec (j : Json) : Bool :=
  match isRecipeTop j with
  | .ok b => b
  | .error _ => false

/-- The enumerable property values a for-in loop visits one level deep:
the field values of an object, the elements of an array, nothing for
primitives. -/
def childValues : Json → List Json
  | .obj kvs => kvs.map (fun kv => kv.2)
  | .arr xs => xs
  | _ => []

/-- The nested type test of findRecipeData lines 140 to 143: the property
value is an object or array other than null, and its type discriminator
is the string Recipe by strict equality (no array case here). -/
def isRecipeNested (v : Json) : Bool :=
  match v with
  | .obj kvs =>
    match lookupKV kvs "@type" with
    | some (.str s) => s = "Recipe"
    | _ => false
  | _ => false

/-- The top-level scan of findRecipeData: first block whose discriminator
matches, throwing when a null block is reached before a match. -/
def topScan : List Json → Except Unit (Option Json)
  | [] => .ok none
  | b :: rest => do
    if (← isRecipeTop b) then pure (some b) else topScan rest

/-- The nested scan of findRecipeData lines 136 to 149: first block, in
order, holding a property value that passes the nested type test. -/
def nestedScan (blocks : List Json) : Option Json :=
  blocks.findSome? (fun b => (childValues b).find? isRecipeNested)

/-- findRecipeData (jsonld parser lines 128 to 152): the top-level scan,
then, only when it found nothing, the nested scan. -/
def findRecipeData (blocks : List Json) : Except Unit (Option Json) := do
  match ← topScan blocks with
  | some b => pure (some b)
  | none => pure (nestedScan blocks)

/-- findRecipeData as the spec describes it: the same two ordered scans,
but total, a null block never aborting the extraction. -/
def findRecipeDataSpec (blocks : List Json) : Option Json :=
  match blocks.find? isRecipeTopSpec with
  | some b => some b
  | none => nestedScan blocks

/-- extractIngredients (jsonld parser lines 157 to 167): the primary field
recipeIngredient when it holds an array, else the secondary field
ingredients when that holds an array, else nothing. -/
def extractIngredients (recipeData : Json) : List Json :=
  match getProp recipeData "recipeIngredient" with
  | some (.arr xs) => xs
  | _ =>
    match getProp recipeData "ingredients" with
    | some (.arr ys) => ys
    | _ => []

/-- shouldExcludeIngredient (jsonld parser lines 172 to 180): the
lowercased ingredient contains some lowercased entry of the exclusion
list as a substring. -/
def shouldExcludeIngredient (excl : List String) (ingredient : String) : Bool :=
  let lowerIngredient := jsToLower ingredient
  excl.any (fun excluded =>
    listContainsSub lowerIngredient.toList (jsToLower excluded).toList)

/-- The truthiness-and-length test of the first ingredient filter
(jsonld parser line 70) on an arbitrary JSON element: a string passes
when non-empty, an array passes when non-empty via its length property,
every other value is falsy or has an undefined length (an object carrying
its own property named length is not modelled; no claim reaches that
corner). -/
def truthyNonEmpty : Json → Bool
  | .str s => s.length ≠ 0
  | .arr xs => xs.length ≠ 0
  | _ => false

/-- The exclusion filter pass (jsonld parser line 71) over the elements
that survived the first filter.  Calling toLowerCase on a non-string
element throws, modelled by the error case. -/
def excludeFilterJson (excl : List String) : List Json → Except Unit (List Json)
  | [] => .ok []
  | .str s :: rest =>
    (excludeFilterJson excl rest).map
      (fun r => if shouldExcludeIngredient excl s then r else .str s :: r)
  | _ :: _ => .error ()

/-- Both ingredient filter passes of jsonld parser lines 69 to 71. -/
def filterIngredientsStage (excl : List String) (ings : List Json) :
    Except Unit (List Json) :=
  excludeFilterJson excl (ings.filter truthyNonEmpty)

/-- The whole extraction on already-parsed blocks (jsonld parser lines 52
to 77 with the surrounding try/catch): locate the recipe, read its
ingredient list, return empty when either step finds nothing, filter, and
turn any thrown error into an empty result. -/
def extractIngredientsFromBlocks (excl : List String) (blocks : List Json) :
    List Json :=
  match (do
    match ← findRecipeData blocks with
    | none => pure []
    | some recipeData =>
      let ingredients := extractIngredients recipeData
      if ingredients.length = 0 then pure []
      else filterIngredientsStage excl ingredients : Except Unit (List Json)) with
  | .ok l => l
  | .error _ => []

/-! ## Definitions taken from the wording of the spec, for comparison -/

/-- Modelled from the spec: the extraction pattern Final choice: N that
section 4.4 lists inside strategy 2 of the response parsing chain; no such
pattern occurs in src/llm.ts.  Matches the phrase case-insensitively at
the current position, then whitespace, then digits. -/
def matchFinalChoiceAt (cs : List Char) : Option ℕ :=
  if listStartsWith (cs.map Char.toLower)
      ['f', 'i', 'n', 'a', 'l', ' ', 'c', 'h', 'o', 'i', 'c', 'e', ':'] then
    let ds := ((cs.drop 13).dropWhile jsIsSpace).takeWhile Char.isDigit
    if ds = [] then none else some (natVal ds)
  else none

/-- Modelled from the spec: scan for the leftmost Final choice: N phrase. -/
def scanFinalChoice : List Char → Option ℕ
  | [] => none
  | c :: rest =>
    match matchFinalChoiceAt (c :: rest) with
    | some n => some n
    | none => scanFinalChoice rest

/-! ## Helper functions for the selection theorems -/

/-- Least key value of a non-empty list, presented with an explicit head. -/
def minKeyAux {α : Type} (key : α → ℚ) : α → List α → ℚ
  | a, [] => key a
  | a, b :: t => min (key a) (minKeyAux key b t)

/-- Greatest key value of a non-empty list, presented with an explicit head. -/
def maxKeyAux {α : Type} (key : α → ℚ) : α → List α → ℚ
  | a, [] => key a
  | a, b :: t => max (key a) (maxKeyAux key b t)

/-- Least key value of a list, 0 for the empty list. -/
def minKeyL {α : Type} (key : α → ℚ) : List α → ℚ
  | [] => 0
  | a :: t => minKeyAux key a t

/-- Greatest key value of a list, 0 for the empty list. -/
def maxKeyL {α : Type} (key : α → ℚ) : List α → ℚ
  | [] => 0
  | a :: t => maxKeyAux key a t

/-- The weight the deterministic selection targets: the least sufficient
candidate weight when some candidate weight reaches the requirement, else
the greatest candidate weight overall. -/
def detTargetWeight (pws : List (Product × ℚ)) (R : ℚ) : ℚ :=
  let suff := pws.filter (fun y => decide (R ≤ y.2))
  if suff.length = 0 then maxKeyL (fun y => y.2) pws
  else minKeyL (fun y => y.2) suff

/-! ## Concrete values used by counterexamples and witnesses -/

/-- Candidate list of scenario A of the spec: three parseable weights. -/
def scenarioAProducts : List Product :=
  [{ title := "Bananer 150g", displayVolume := some "150g" },
   { title := "Bananer 300g", displayVolume := some "300g" },
   { title := "Bananer 500g", displayVolume := some "500g" }]

/-- Two candidates without any parseable weight. -/
def noWeightProducts : List Product :=
  [{ title := "Mjolk 1 liter" }, { title := "Mjolk 2 liter" }]

/-- Response text containing a Final choice phrase that the spec chain
would use and the code chain does not. -/
def finalChoiceText : List Char :=
  "I looked at 9 products.\nFinal choice: 3\nok".toList

/-- A recipe block with one usable ingredient. -/
def recipeBlockEx : Json :=
  .obj [("@type", .str "Recipe"), ("recipeIngredient", .arr [.str "vetemjol"])]

/-! ## Supporting lemmas -/

theorem minKeyAux_le {α : Type} (key : α → ℚ) :
    ∀ (a : α) (t : List α), ∀ x ∈ a :: t, minKeyAux key a t ≤ key x := by
  intro a t
  induction t generalizing a with
  | nil => intro x hx; rw [List.mem_singleton] at hx; subst hx; simp [minKeyAux]
  | cons b t ih =>
    intro x hx
    rcases List.mem_cons.mp hx with rfl | hx
    · simp [minKeyAux]
    · calc minKeyAux key a (b :: t) ≤ minKeyAux key b t := by
            simp [minKeyAux]
        _ ≤ key x := ih b x hx

theorem minKeyAux_mem {α : Type} (key : α → ℚ) :
    ∀ (a : α) (t : List α), ∃ x ∈ a :: t, key x = minKeyAux key a t := by
  intro a t
  induction t generalizing a with
  | nil => exact ⟨a, by simp, by simp [minKeyAux]⟩
  | cons b t ih =>
    obtain ⟨x, hx, hk⟩ := ih b
    by_cases h : key a ≤ minKeyAux key b t
    · exact ⟨a, by simp, by simp [minKeyAux, min_eq_left h]⟩
    · push_neg at h
      exact ⟨x, by simp [List.mem_cons] at hx ⊢; tauto,
        by simp [minKeyAux, min_eq_right h.le, hk]⟩

theorem le_minKeyAux {α : Type} (key : α → ℚ) :
    ∀ (a : α) (t : List α) (c : ℚ), (∀ x ∈ a :: t, c ≤ key x) →
      c ≤ minKeyAux key a t := by
  intro a t
  induction t generalizing a with
  | nil => intro c h; simpa [minKeyAux] using h a (by simp)
  | cons b t ih =>
    intro c h
    have h1 : c ≤ key a := h a (by simp)
    have h2 : c ≤ minKeyAux key b t := ih b c (fun x hx => h x (by
      simp [List.mem_cons] at hx ⊢; tauto))
    simp [minKeyAux, le_min_iff]; exact ⟨h1, h2⟩

theorem maxKeyAux_le {α : Type} (key : α → ℚ) :
    ∀ (a : α) (t : List α), ∀ x ∈ a :: t, key x ≤ maxKeyAux key a t := by
  intro a t
  induction t generalizing a with
  | nil => intro x hx; rw [List.mem_singleton] at hx; subst hx; simp [maxKeyAux]
  | cons b t ih =>
    intro x hx
    rcases List.mem_cons.mp hx with rfl | hx
    · simp [maxKeyAux]
    · calc key x ≤ maxKeyAux key b t := ih b x hx
        _ ≤ maxKeyAux key a (b :: t) := by simp [maxKeyAux]

theorem maxKeyAux_mem {α : Type} (key : α → ℚ) :
    ∀ (a : α) (t : List α), ∃ x ∈ a :: t, key x = maxKeyAux key a t := by
  intro a t
  induction t generalizing a with
  | nil => exact ⟨a, by simp, by simp [maxKeyAux]⟩
  | cons b t ih =>
    obtain ⟨x, hx, hk⟩ := ih b
    by_cases h : maxKeyAux key b t ≤ key a
    · exact ⟨a, by simp, by simp [maxKeyAux, max_eq_left h]⟩
    · push_neg at h
      exact ⟨x, by simp [List.mem_cons] at hx ⊢; tauto,
        by simp [maxKeyAux, max_eq_right h.le, hk]⟩

theorem ascLe_trans {α : Type} (key : α → ℚ) (x y z : α)
    (h1 : decide (key x ≤ key y) = true) (h2 : decide (key y ≤ key z) = true) :
    decide (key x ≤ key z) = true := by
  rw [decide_eq_true_iff] at h1 h2 ⊢
  exact le_trans h1 h2

theorem ascLe_total {α : Type} (key : α → ℚ) (x y : α) :
    (decide (key x ≤ key y) || decide (key y ≤ key x)) = true := by
  rcases le_total (key x) (key y) with h | h <;> simp [h]

theorem descLe_trans {α : Type} (key : α → ℚ) (x y z : α)
    (h1 : decide (key y ≤ key x) = true) (h2 : decide (key z ≤ key y) = true) :
    decide (key z ≤ key x) = true := by
  rw [decide_eq_true_iff] at h1 h2 ⊢
  exact le_trans h2 h1

theorem head_mergeSort_asc {α : Type} (key : α → ℚ) :
    ∀ (t : List α) (a : α),
      ((a :: t).mergeSort (fun x y => decide (key x ≤ key y))).head?
        = (a :: t).find? (fun x => decide (key x = minKeyAux key a t)) := by
  intro t
  induction t with
  | nil =>
    intro a
    rw [List.mergeSort_singleton]
    simp [List.find?, minKeyAux]
  | cons b t ih =>
    intro a
    obtain ⟨l₁, l₂, h₁, h₂, h₃⟩ :=
      @List.mergeSort_cons α (fun x y => decide (key x ≤ key y))
        (fun x y z => ascLe_trans key x y z)
        (fun x y => ascLe_total key x y) a (b :: t)
    cases l₁ with
    | nil =>
      rw [List.nil_append] at h₁ h₂
      have hsorted :=
        @List.sorted_mergeSort α (fun x y => decide (key x ≤ key y))
          (fun x y z => ascLe_trans key x y z)
          (fun x y => ascLe_total key x y) (a :: b :: t)
      rw [h₁, List.pairwise_cons] at hsorted
      have hperm := List.mergeSort_perm (b :: t) (fun x y => decide (key x ≤ key y))
      rw [h₂] at hperm
      have hle : ∀ x ∈ b :: t, key a ≤ key x := by
        intro x hx
        have := hsorted.1 x (hperm.mem_iff.mpr hx)
        rwa [decide_eq_true_iff] at this
      have hmin : minKeyAux key a (b :: t) = key a := by
        have := le_minKeyAux key b t (key a) (fun x hx => hle x hx)
        simp [minKeyAux, min_eq_left this]
      rw [h₁, hmin]
      have hpa : decide (key a = key a) = true := by simp
      exact (@List.find?_cons_of_pos _
        (fun x => decide (key x = key a)) a (b :: t) hpa).symm
    | cons c l₁ =>
      have hhead : ((c :: l₁) ++ a :: l₂).head? = some c := rfl
      rw [h₁, hhead]
      have hih := ih b
      rw [h₂] at hih
      have hfind : (b :: t).find?
          (fun x => decide (key x = minKeyAux key b t)) = some c := by
        rw [← hih]; rfl
      have hkeyc : key c = minKeyAux key b t := by
        have := List.find?_some hfind
        rwa [decide_eq_true_iff] at this
      have hlt : key c < key a := by
        have := h₃ c (List.mem_cons_self c l₁)
        simp only [Bool.not_eq_true'] at this
        rw [decide_eq_false_iff_not] at this
        exact lt_of_not_le this
      have hmin : minKeyAux key a (b :: t) = minKeyAux key b t := by
        simp [minKeyAux, min_eq_right (hkeyc ▸ hlt).le]
      rw [hmin]
      have hne : decide (key a = minKeyAux key b t) = false := by
        rw [decide_eq_false_iff_not]
        intro h
        exact absurd (h ▸ (hkeyc ▸ hlt)) (lt_irrefl _)
      rw [@List.find?_cons_of_neg _
        (fun x => decide (key x = minKeyAux key b t)) a (b :: t)
        (by simp [hne]), hfind]

theorem head_mergeSort_desc {α : Type} (key : α → ℚ) :
    ∀ (t : List α) (a : α),
      ((a :: t).mergeSort (fun x y => decide (key y ≤ key x))).head?
        = (a :: t).find? (fun x => decide (key x = maxKeyAux key a t)) := by
  intro t
  induction t with
  | nil =>
    intro a
    rw [List.mergeSort_singleton]
    simp [List.find?, maxKeyAux]
  | cons b t ih =>
    intro a
    obtain ⟨l₁, l₂, h₁, h₂, h₃⟩ :=
      @List.mergeSort_cons α (fun x y => decide (key y ≤ key x))
        (fun x y z => descLe_trans key x y z)
        (fun x y => ascLe_total key y x) a (b :: t)
    cases l₁ with
    | nil =>
      rw [List.nil_append] at h₁ h₂
      have hsorted :=
        @List.sorted_mergeSort α (fun x y => decide (key y ≤ key x))
          (fun x y z => descLe_trans key x y z)
          (fun x y => ascLe_total key y x) (a :: b :: t)
      rw [h₁, List.pairwise_cons] at hsorted
      have hperm := List.mergeSort_perm (b :: t) (fun x y => decide (key y ≤ key x))
      rw [h₂] at hperm
      have hle : ∀ x ∈ b :: t, key x ≤ key a := by
        intro x hx
        have := hsorted.1 x (hperm.mem_iff.mpr hx)
        rwa [decide_eq_true_iff] at this
      have hmax : maxKeyAux key a (b :: t) = key a := by
        obtain ⟨x, hx, hk⟩ := maxKeyAux_mem key b t
        have h1 : maxKeyAux key b t ≤ key a := hk ▸ hle x hx
        simp [maxKeyAux, max_eq_left h1]
      rw [h₁, hmax]
      have hpa : decide (key a = key a) = true := by simp
      exact (@List.find?_cons_of_pos _
        (fun x => decide (key x = key a)) a (b :: t) hpa).symm
    | cons c l₁ =>
      have hhead : ((c :: l₁) ++ a :: l₂).head? = some c := rfl
      rw [h₁, hhead]
      have hih := ih b
      rw [h₂] at hih
      have hfind : (b :: t).find?
          (fun x => decide (key x = maxKeyAux key b t)) = some c := by
        rw [← hih]; rfl
      have hkeyc : key c = maxKeyAux key b t := by
        have := List.find?_some hfind
        rwa [decide_eq_true_iff] at this
      have hlt : key a < key c := by
        have := h₃ c (List.mem_cons_self c l₁)
        simp only [Bool.not_eq_true'] at this
        rw [decide_eq_false_iff_not] at this
        exact lt_of_not_le this
      have hmax : maxKeyAux key a (b :: t) = maxKeyAux key b t := by
        simp [maxKeyAux, max_eq_right (hkeyc ▸ hlt).le]
      rw [hmax]
      have hne : decide (key a = maxKeyAux key b t) = false := by
        rw [decide_eq_false_iff_not]
        intro h
        exact absurd (h ▸ (hkeyc ▸ hlt)) (lt_irrefl _)
      rw [@List.find?_cons_of_neg _
        (fun x => decide (key x = maxKeyAux key b t)) a (b :: t)
        (by simp [hne]), hfind]

theorem find?_filter_of_imp {α : Type} (l : List α) (p q : α → Bool)
    (h : ∀ x, p x = true → q x = true) :
    (l.filter q).find? p = l.find? p := by
  induction l with
  | nil => rfl
  | cons x t ih =>
    by_cases hq : q x = true
    · rw [List.filter_cons_of_pos hq]
      by_cases hp : p x = true
      · rw [List.find?_cons_of_pos _ hp, List.find?_cons_of_pos _ hp]
      · rw [List.find?_cons_of_neg _ (by simpa using hp),
          List.find?_cons_of_neg _ (by simpa using hp), ih]
    · rw [List.filter_cons_of_neg (by simpa using hq), ih,
        List.find?_cons_of_neg]
      intro hp
      exact hq (h x hp)

theorem detSelect_eq_find (pws : List (Product × ℚ)) (R : ℚ) (hne : pws ≠ []) :
    detSelect pws R
      = (pws.find? (fun y => decide (y.2 = detTargetWeight pws R))).map
          (fun p => p.1) := by
  have hz : detSelect pws R
      = (if 0 < (pws.filter (fun y => decide (R ≤ y.2))).length then
          (((pws.filter (fun y => decide (R ≤ y.2))).mergeSort
            (fun a b => decide (a.2 ≤ b.2))).head?).map (fun p => p.1)
        else
          ((pws.mergeSort (fun a b => decide (b.2 ≤ a.2))).head?).map
            (fun p => p.1)) := rfl
  have ht : detTargetWeight pws R
      = (if (pws.filter (fun y => decide (R ≤ y.2))).length = 0 then
          maxKeyL (fun y => y.2) pws
        else minKeyL (fun y => y.2) (pws.filter (fun y => decide (R ≤ y.2)))) := rfl
  rw [hz, ht]
  cases hs : pws.filter (fun y => decide (R ≤ y.2)) with
  | nil =>
    cases pws with
    | nil => exact absurd rfl hne
    | cons w wt =>
      have hc1 : ¬ 0 < ([] : List (Product × ℚ)).length := by simp
      have hc2 : ([] : List (Product × ℚ)).length = 0 := rfl
      rw [if_neg hc1]
      simp only [if_pos hc2, maxKeyL]
      rw [head_mergeSort_desc (fun y => y.2) wt w]
  | cons s st =>
    have hc1 : 0 < (s :: st).length := by simp
    have hc2 : ¬ (s :: st).length = 0 := by simp
    rw [if_pos hc1]
    simp only [if_neg hc2, minKeyL]
    rw [head_mergeSort_asc (fun y => y.2) st s]
    have hRm : R ≤ minKeyAux (fun y => y.2) s st := by
      obtain ⟨x, hx, hk⟩ := minKeyAux_mem (fun y => y.2) s st
      rw [← hs] at hx
      have := (List.mem_filter.mp hx).2
      rw [decide_eq_true_iff] at this
      exact hk ▸ this
    have hlift := find?_filter_of_imp pws
      (fun y => decide (y.2 = minKeyAux (fun y => y.2) s st))
      (fun y => decide (R ≤ y.2))
      (by
        intro x hx
        rw [decide_eq_true_iff] at hx ⊢
        exact hx ▸ hRm)
    rw [hs] at hlift
    rw [hlift]

theorem selectBestProduct_detPath (ps : List Product) (item : String)
    (llm : Except Unit String) (R : ℚ) (hw : parseReqWeight item = some R) :
    selectBestProduct ps item llm
      = (detSelect (productWeights ps) R).map
          (fun p => (p, SelectionMethod.DeterministicWeight)) := by
  unfold selectBestProduct
  rw [hw]

theorem productWeights_ne_nil (ps : List Product) (hne : ps ≠ []) :
    productWeights ps ≠ [] := by
  cases ps with
  | nil => exact absurd rfl hne
  | cons p pt => simp [productWeights]

/-! ## Claim theorems -/

/-- C1: for every non-empty candidate list and every requirement text in
which a weight R greater than 0 is detected, the matcher returns, with
method DeterministicWeight and without consulting the collaborator (the
llm argument is arbitrary), the first candidate in input order whose
weight equals the target weight, where the target weight is the minimum
of the sufficient weights (those at least R) when some candidate is
sufficient, and the maximum weight over the whole list otherwise; the
second and third conjuncts verify that the target weight is an attained
minimum of the sufficient set and at least R, respectively an attained
maximum of all weights. -/
theorem C1_deterministic_weight_selection (ps : List Product) (item : String)
    (llm : Except Unit String) (R : ℚ)
    (hne : ps ≠ []) (hw : parseReqWeight item = some R) (hR : 0 < R) :
    selectBestProduct ps item llm
      = ((productWeights ps).find?
          (fun y => decide (y.2 = detTargetWeight (productWeights ps) R))).map
          (fun y => (y.1, SelectionMethod.DeterministicWeight))
    ∧ ((productWeights ps).filter (fun y => decide (R ≤ y.2)) ≠ [] →
        ((productWeights ps).filter (fun y => decide (R ≤ y.2))).any
            (fun y => decide (y.2 = detTargetWeight (productWeights ps) R)) = true
        ∧ ((productWeights ps).filter (fun y => decide (R ≤ y.2))).all
            (fun y => decide (detTargetWeight (productWeights ps) R ≤ y.2)) = true
        ∧ R ≤ detTargetWeight (productWeights ps) R)
    ∧ ((productWeights ps).filter (fun y => decide (R ≤ y.2)) = [] →
        (productWeights ps).any
            (fun y => decide (y.2 = detTargetWeight (productWeights ps) R)) = true
        ∧ (productWeights ps).all
            (fun y => decide (y.2 ≤ detTargetWeight (productWeights ps) R)) = true) := by
  have hpne : productWeights ps ≠ [] := productWeights_ne_nil ps hne
  refine ⟨?_, ?_, ?_⟩
  · rw [selectBestProduct_detPath ps item llm R hw,
      detSelect_eq_find (productWeights ps) R hpne, Option.map_map]
    rfl
  · intro hsne
    cases hs : (productWeights ps).filter (fun y => decide (R ≤ y.2)) with
    | nil => exact absurd hs hsne
    | cons s st =>
      have htgt : detTargetWeight (productWeights ps) R
          = minKeyAux (fun y => y.2) s st := by
        have ht : detTargetWeight (productWeights ps) R
            = (if ((productWeights ps).filter
                  (fun y => decide (R ≤ y.2))).length = 0 then
                maxKeyL (fun y => y.2) (productWeights ps)
              else minKeyL (fun y => y.2)
                ((productWeights ps).filter (fun y => decide (R ≤ y.2)))) := rfl
        rw [ht, hs, if_neg (show ¬ (s :: st).length = 0 by simp)]
        rfl
      refine ⟨?_, ?_, ?_⟩
      · rw [htgt, List.any_eq_true]
        obtain ⟨x, hx, hk⟩ := minKeyAux_mem (fun y => y.2) s st
        exact ⟨x, hx, by simpa using hk⟩
      · rw [htgt, List.all_eq_true]
        intro x hx
        simpa using minKeyAux_le (fun y => y.2) s st x hx
      · rw [htgt]
        obtain ⟨x, hx, hk⟩ := minKeyAux_mem (fun y => y.2) s st
        rw [← hs] at hx
        have := (List.mem_filter.mp hx).2
        rw [decide_eq_true_iff] at this
        exact hk ▸ this
  · intro hs
    obtain ⟨w, wt, hp⟩ := List.exists_cons_of_ne_nil hpne
    have htgt : detTargetWeight (productWeights ps) R
        = maxKeyAux (fun y => y.2) w wt := by
      have ht : detTargetWeight (productWeights ps) R
          = (if ((productWeights ps).filter
                (fun y => decide (R ≤ y.2))).length = 0 then
              maxKeyL (fun y => y.2) (productWeights ps)
            else minKeyL (fun y => y.2)
              ((productWeights ps).filter (fun y => decide (R ≤ y.2)))) := rfl
      rw [ht, hs, hp,
        if_pos (show ([] : List (Product × ℚ)).length = 0 from rfl)]
      rfl
    constructor
    · rw [htgt, hp, List.any_eq_true]
      obtain ⟨x, hx, hk⟩ := maxKeyAux_mem (fun y => y.2) w wt
      exact ⟨x, hx, by simpa using hk⟩
    · rw [htgt, hp, List.all_eq_true]
      intro x hx
      simpa using maxKeyAux_le (fun y => y.2) w wt x hx

/-- C1 witness: scenario A of the spec, requirement 2.5 kg with candidate
weights 150, 300 and 500 grams, instantiated with an erroring collaborator
to exhibit that the deterministic path never consults it. -/
theorem C1_witness :
    selectBestProduct scenarioAProducts "2.5 kg bananer" (Except.error ())
      = ((productWeights scenarioAProducts).find?
          (fun y => decide
            (y.2 = detTargetWeight (productWeights scenarioAProducts) 2500))).map
          (fun y => (y.1, SelectionMethod.DeterministicWeight))
    ∧ ((productWeights scenarioAProducts).filter
          (fun y => decide ((2500 : ℚ) ≤ y.2)) ≠ [] →
        ((productWeights scenarioAProducts).filter
            (fun y => decide ((2500 : ℚ) ≤ y.2))).any
            (fun y => decide
              (y.2 = detTargetWeight (productWeights scenarioAProducts) 2500))
          = true
        ∧ ((productWeights scenarioAProducts).filter
            (fun y => decide ((2500 : ℚ) ≤ y.2))).all
            (fun y => decide
              (detTargetWeight (productWeights scenarioAProducts) 2500 ≤ y.2))
          = true
        ∧ (2500 : ℚ) ≤ detTargetWeight (productWeights scenarioAProducts) 2500)
    ∧ ((productWeights scenarioAProducts).filter
          (fun y => decide ((2500 : ℚ) ≤ y.2)) = [] →
        (productWeights scenarioAProducts).any
            (fun y => decide
              (y.2 = detTargetWeight (productWeights scenarioAProducts) 2500))
          = true
        ∧ (productWeights scenarioAProducts).all
            (fun y => decide
              (y.2 ≤ detTargetWeight (productWeights scenarioAProducts) 2500))
          = true) :=
  C1_deterministic_weight_selection scenarioAProducts "2.5 kg bananer"
    (Except.error ()) 2500 (by decide) (by with_unfolding_all rfl) (by decide)

/-- C10: when a positive weight requirement is detected but no candidate
displayVolume parses to a weight, every candidate weight is 0, nothing is
sufficient, and the stable descending sort leaves the input order intact,
so the deterministic path returns the first candidate of the input list. -/
theorem C10_no_parseable_weights (ps : List Product) (item : String)
    (llm : Except Unit String) (R : ℚ)
    (hne : ps ≠ []) (hw : parseReqWeight item = some R) (hR : 0 < R)
    (hz : ps.all (fun p => decide (productWeight p.displayVolume = 0)) = true) :
    selectBestProduct ps item llm
      = ps.head?.map (fun p => (p, SelectionMethod.DeterministicWeight)) := by
  have hzz : ∀ y ∈ productWeights ps, y.2 = 0 := by
    intro y hy
    obtain ⟨p, hp, rfl⟩ := List.mem_map.mp hy
    rw [List.all_eq_true] at hz
    simpa using hz p hp
  have hpne : productWeights ps ≠ [] := productWeights_ne_nil ps hne
  have hs : (productWeights ps).filter (fun y => decide (R ≤ y.2)) = [] := by
    rw [List.filter_eq_nil_iff]
    intro y hy
    rw [hzz y hy]
    simp only [decide_eq_true_iff]
    exact not_le.mpr hR
  rw [selectBestProduct_detPath ps item llm R hw,
    detSelect_eq_find (productWeights ps) R hpne, Option.map_map]
  cases ps with
  | nil => exact absurd rfl hne
  | cons p pt =>
    have hp : productWeights (p :: pt)
        = (p, productWeight p.displayVolume) :: productWeights pt := rfl
    have htgt : detTargetWeight (productWeights (p :: pt)) R = 0 := by
      have ht : detTargetWeight (productWeights (p :: pt)) R
          = (if ((productWeights (p :: pt)).filter
                (fun y => decide (R ≤ y.2))).length = 0 then
              maxKeyL (fun y => y.2) (productWeights (p :: pt))
            else minKeyL (fun y => y.2)
              ((productWeights (p :: pt)).filter (fun y => decide (R ≤ y.2)))) := rfl
      rw [ht, hs, hp,
        if_pos (show ([] : List (Product × ℚ)).length = 0 from rfl)]
      show maxKeyAux (fun y => y.2) (p, productWeight p.displayVolume)
          (productWeights pt) = 0
      obtain ⟨x, hx, hk⟩ :=
        maxKeyAux_mem (fun y => y.2) (p, productWeight p.displayVolume)
          (productWeights pt)
      rw [← hk]
      exact hzz x (hp ▸ hx)
    have hw0 : productWeight p.displayVolume = 0 :=
      hzz (p, productWeight p.displayVolume) (by rw [hp]; simp)
    rw [htgt, hp]
    rw [@List.find?_cons_of_pos _ (fun y => decide (y.2 = 0))
      (p, productWeight p.displayVolume) (productWeights pt)
      (by simpa using hw0)]
    rfl

/-- C10 witness: two candidates without parseable weights and the
requirement 2.5 kg; the first candidate is selected deterministically. -/
theorem C10_witness :
    selectBestProduct noWeightProducts "2.5 kg bananer" (Except.error ())
      = noWeightProducts.head?.map
          (fun p => (p, SelectionMethod.DeterministicWeight)) :=
  C10_no_parseable_weights noWeightProducts "2.5 kg bananer" (Except.error ())
    2500 (by decide) (by with_unfolding_all rfl) (by decide)
    (by with_unfolding_all rfl)

theorem adjustProductQuantity_true (p : Product) (item : String) :
    adjustProductQuantity true p item
      = (if (extractWeightInformation p item).1 = 0
            ∨ (extractWeightInformation p item).2 = 0
         then (p, 0)
         else ({ p with quantity := p.quantity
                  + (⌈(extractWeightInformation p item).2
                      / (extractWeightInformation p item).1⌉ - 1).toNat },
               (⌈(extractWeightInformation p item).2
                  / (extractWeightInformation p item).1⌉ - 1).toNat)) := by
  rfl

/-- C2: with the quantity already at 1 from the initial buy click, when
both the unit weight and the required weight are known and positive the
pipeline requests exactly ceil of required over unit minus 1 additional
increase-quantity actions, a number that is never negative, and the
in-memory quantity afterwards equals that ceiling, which is the integer
satisfying the minimal-sufficient-count inequalities; when either weight
is 0 the product is left at quantity 1 with no requested action. -/
theorem C2_quantity_optimizer (p : Product) (item : String) (u r : ℚ)
    (hq : p.quantity = 1)
    (hu : (extractWeightInformation p item).1 = u)
    (hr : (extractWeightInformation p item).2 = r) :
    ((u = 0 ∨ r = 0) → adjustProductQuantity true p item = (p, 0))
    ∧ (0 < u → 0 < r →
        0 ≤ ⌈r / u⌉ - 1
        ∧ (adjustProductQuantity true p item).2 = (⌈r / u⌉ - 1).toNat
        ∧ ((adjustProductQuantity true p item).1.quantity : ℤ) = ⌈r / u⌉
        ∧ ((⌈r / u⌉ : ℚ) - 1) * u < r
        ∧ r ≤ (⌈r / u⌉ : ℚ) * u) := by
  constructor
  · intro h0
    rw [adjustProductQuantity_true, if_pos (by rw [hu, hr]; exact h0)]
  · intro hu0 hr0
    have hne0 : ¬((extractWeightInformation p item).1 = 0
        ∨ (extractWeightInformation p item).2 = 0) := by
      rw [hu, hr]
      push_neg
      exact ⟨ne_of_gt hu0, ne_of_gt hr0⟩
    have hadj := adjustProductQuantity_true p item
    rw [if_neg hne0, hu, hr] at hadj
    have hcpos : 0 < ⌈r / u⌉ := Int.ceil_pos.mpr (div_pos hr0 hu0)
    have h1 : 0 ≤ ⌈r / u⌉ - 1 := by omega
    refine ⟨h1, ?_, ?_, ?_, ?_⟩
    · rw [hadj]
    · rw [hadj]
      show ((p.quantity + (⌈r / u⌉ - 1).toNat : ℕ) : ℤ) = ⌈r / u⌉
      rw [hq]
      omega
    · have hceil : (⌈r / u⌉ : ℚ) < r / u + 1 := Int.ceil_lt_add_one (r / u)
      have hlt : (⌈r / u⌉ : ℚ) - 1 < r / u := by linarith
      calc ((⌈r / u⌉ : ℚ) - 1) * u < (r / u) * u := by
            exact mul_lt_mul_of_pos_right hlt hu0
        _ = r := div_mul_cancel₀ r (ne_of_gt hu0)
    · have hle : r / u ≤ (⌈r / u⌉ : ℚ) := Int.le_ceil (r / u)
      calc r = (r / u) * u := (div_mul_cancel₀ r (ne_of_gt hu0)).symm
        _ ≤ (⌈r / u⌉ : ℚ) * u := mul_le_mul_of_nonneg_right hle (le_of_lt hu0)

/-- C2 witness: a 500 gram candidate already at quantity 1 against the
requirement 2.5 kg; the optimal count is 5 and 4 further actions are
requested. -/
theorem C2_witness :
    (((500 : ℚ) = 0 ∨ (2500 : ℚ) = 0) →
      adjustProductQuantity true
        { title := "Bananer 500g", displayVolume := some "500g", quantity := 1 }
        "2.5 kg bananer"
        = ({ title := "Bananer 500g", displayVolume := some "500g",
             quantity := 1 }, 0))
    ∧ ((0 : ℚ) < 500 → (0 : ℚ) < 2500 →
        0 ≤ ⌈(2500 : ℚ) / 500⌉ - 1
        ∧ (adjustProductQuantity true
            { title := "Bananer 500g", displayVolume := some "500g",
              quantity := 1 } "2.5 kg bananer").2 = (⌈(2500 : ℚ) / 500⌉ - 1).toNat
        ∧ ((adjustProductQuantity true
            { title := "Bananer 500g", displayVolume := some "500g",
              quantity := 1 } "2.5 kg bananer").1.quantity : ℤ)
            = ⌈(2500 : ℚ) / 500⌉
        ∧ ((⌈(2500 : ℚ) / 500⌉ : ℚ) - 1) * 500 < 2500
        ∧ (2500 : ℚ) ≤ (⌈(2500 : ℚ) / 500⌉ : ℚ) * 500) :=
  C2_quantity_optimizer
    { title := "Bananer 500g", displayVolume := some "500g", quantity := 1 }
    "2.5 kg bananer" 500 2500 rfl (by with_unfolding_all rfl)
    (by with_unfolding_all rfl)

/-- C4 counterexample: with a non-empty candidate list, no weight
requirement and a collaborator error, the matcher returns none rather
than the first candidate with method FallbackFirst, refuting the claim
that a collaborator error is treated identically to a response without a
valid index. -/
theorem C4_counterexample :
    selectBestProduct [{ title := "Mjolk" }] "mjolk" (Except.error ()) = none
    ∧ selectBestProduct [{ title := "Mjolk" }] "mjolk" (Except.error ())
        ≠ some ({ title := "Mjolk" }, SelectionMethod.FallbackFirst)
    ∧ ([{ title := "Mjolk" }] : List Product) ≠ [] := by
  refine ⟨by decide, by decide, by decide⟩

/-- C4 amended: when no weight requirement is detected, a thrown
collaborator error is caught and the matcher returns none whatever the
candidate list is, while a successful response on which every extraction
strategy fails falls back to the first candidate with method
FallbackFirst, or none when the candidate list is empty; in both cases no
error propagates (the function is total). -/
theorem C4_fallback_behavior (ps : List Product) (item content : String)
    (hno : parseReqWeight item = none) :
    selectBestProduct ps item (Except.error ()) = none
    ∧ (parseProductSelection ps.length (jsTrimList content.toList) = none →
        selectBestProduct ps item (Except.ok content)
          = ps.head?.map (fun p => (p, SelectionMethod.FallbackFirst))) := by
  have hpath : selectBestProduct ps item (Except.ok content)
      = (match parseProductSelection ps.length (jsTrimList content.toList) with
        | some i => (ps[i]?).map (fun p => (p, SelectionMethod.LlmArbitration))
        | none =>
          match ps with
          | [] => none
          | p :: _ => some (p, SelectionMethod.FallbackFirst)) := by
    unfold selectBestProduct
    rw [hno]
  constructor
  · unfold selectBestProduct
    rw [hno]
  · intro hparse
    rw [hpath, hparse]
    cases ps <;> rfl

/-- C4 witness: two candidates, the item mjolk without weight, and a
response without any digits. -/
theorem C4_witness :
    selectBestProduct [{ title := "Mjolk" }, { title := "Fil" }] "mjolk"
        (Except.error ()) = none
    ∧ (parseProductSelection
          ([{ title := "Mjolk" }, { title := "Fil" }] : List Product).length
          (jsTrimList ("no digits here at all" : String).toList) = none →
        selectBestProduct [{ title := "Mjolk" }, { title := "Fil" }] "mjolk"
            (Except.ok "no digits here at all")
          = ([{ title := "Mjolk" }, { title := "Fil" }] : List Product).head?.map
              (fun p => (p, SelectionMethod.FallbackFirst))) :=
  C4_fallback_behavior [{ title := "Mjolk" }, { title := "Fil" }] "mjolk"
    "no digits here at all" (by decide)

/-- C3 counterexample: the response contains the phrase Final choice: 3,
which the spec lists in strategy 2 and which would validate to index 2
among 3 candidates, yet the code chain extracts nothing: the last
non-empty line has no digits, no Product N phrase occurs, the response is
not a bare digit, and the only word-bounded integer 9 is out of range. -/
theorem C3_counterexample :
    parseProductSelection 3 finalChoiceText = none
    ∧ scanFinalChoice finalChoiceText = some 3
    ∧ validateIndex 3 3 = some 2
    ∧ strategy1 finalChoiceText = none
    ∧ strategy2 finalChoiceText = none := by
  refine ⟨by decide, by decide, by decide, by decide, by decide⟩

/-- C3 amended: the extraction chain is the ordered composition of the
four strategies of src/llm.ts, digits on the last non-empty line, then
the phrase Product N anywhere, then a bare single digit, then any
word-bounded integer token, each consulted only when every earlier
strategy produced no valid in-range index (there is no Final choice
pattern in the code). -/
theorem C3_strategy_chain (n : ℕ) (text : List Char) :
    parseProductSelection n text
      = ((strategy1 text).bind (validateIndex n)).orElse (fun _ =>
          ((strategy2 text).bind (validateIndex n)).orElse (fun _ =>
            ((strategy3 text).bind (validateIndex n)).orElse (fun _ =>
              (strategy4 text).bind (validateIndex n)))) := by
  unfold parseProductSelection
  cases (strategy1 text).bind (validateIndex n) with
  | some i => rfl
  | none =>
    cases (strategy2 text).bind (validateIndex n) with
    | some i => rfl
    | none =>
      cases (strategy3 text).bind (validateIndex n) with
      | some i => rfl
      | none => rfl

/-- C5: the extraction chain is a total function that yields either no
selection or a zero-based index within the candidate list; an extracted
number whose index falls outside the list is never returned. -/
theorem C5_parser_in_range (n : ℕ) (text : List Char) :
    (parseProductSelection n text).all (fun i => decide (i < n)) = true := by
  have hv : ∀ N i, validateIndex n N = some i → i < n := by
    intro N i h
    simp only [validateIndex] at h
    split at h
    · rename_i hcond
      injection h with h2
      omega
    · exact Option.noConfusion h
  have hb : ∀ (o : Option ℕ) i, o.bind (validateIndex n) = some i → i < n := by
    intro o i h
    obtain ⟨N, hN, hvi⟩ := Option.bind_eq_some.mp h
    exact hv N i hvi
  unfold parseProductSelection
  cases h1 : (strategy1 text).bind (validateIndex n) with
  | some i => simpa using hb _ i h1
  | none =>
    cases h2 : (strategy2 text).bind (validateIndex n) with
    | some i => simpa using hb _ i h2
    | none =>
      cases h3 : (strategy3 text).bind (validateIndex n) with
      | some i => simpa using hb _ i h3
      | none =>
        cases h4 : (strategy4 text).bind (validateIndex n) with
        | some i => simpa using hb _ i h4
        | none => rfl

theorem dropWhile_head_not (p : Char → Bool) (l : List Char) :
    ((l.dropWhile p).head?).all (fun c => !p c) = true := by
  induction l with
  | nil => rfl
  | cons c t ih =>
    rw [List.dropWhile_cons]
    by_cases h : p c = true
    · rw [if_pos h]; exact ih
    · rw [if_neg (by simpa using h)]
      show (!p c) = true
      simp [h]

theorem head_of_append_ne_nil {α : Type} (m k : List α) (h : m ≠ []) :
    (m ++ k).head? = m.head? := by
  cases m with
  | nil => exact absurd rfl h
  | cons a t => rfl

theorem jsTrimList_split (cs : List Char) :
    ∃ s1 s2, cs = s1 ++ jsTrimList cs ++ s2
      ∧ s1 = cs.takeWhile jsIsSpace
      ∧ (cs.dropWhile jsIsSpace) = jsTrimList cs ++ s2 := by
  refine ⟨cs.takeWhile jsIsSpace,
    ((cs.dropWhile jsIsSpace).reverse.takeWhile jsIsSpace).reverse, ?_, rfl, ?_⟩
  · conv_lhs => rw [← List.takeWhile_append_dropWhile (p := jsIsSpace) (l := cs)]
    rw [List.append_assoc]
    congr 1
    conv_lhs =>
      rw [← List.reverse_reverse (cs.dropWhile jsIsSpace),
        ← @List.takeWhile_append_dropWhile _ jsIsSpace
          (cs.dropWhile jsIsSpace).reverse]
    rw [List.reverse_append]
    rfl
  · conv_lhs =>
      rw [← List.reverse_reverse (cs.dropWhile jsIsSpace),
        ← @List.takeWhile_append_dropWhile _ jsIsSpace
          (cs.dropWhile jsIsSpace).reverse]
    rw [List.reverse_append]
    rfl

theorem jsTrimList_head (cs : List Char) :
    ((jsTrimList cs).head?).all (fun c => !jsIsSpace c) = true := by
  obtain ⟨s1, s2, hsplit, hs1, hdrop⟩ := jsTrimList_split cs
  cases htl : jsTrimList cs with
  | nil => rfl
  | cons a t =>
    have : (cs.dropWhile jsIsSpace).head? = some a := by
      rw [hdrop, htl]
      exact head_of_append_ne_nil (a :: t) s2 (by simp)
    have hall := dropWhile_head_not jsIsSpace cs
    rw [this] at hall
    simpa using hall

theorem jsTrimList_last (cs : List Char) :
    ((jsTrimList cs).getLast?).all (fun c => !jsIsSpace c) = true := by
  show ((((cs.dropWhile jsIsSpace).reverse.dropWhile jsIsSpace).reverse).getLast?).all
      (fun c => !jsIsSpace c) = true
  rw [List.getLast?_reverse]
  exact dropWhile_head_not jsIsSpace (cs.dropWhile jsIsSpace).reverse

/-- C9: on a collaborator error the Ingredient Normalizer returns the raw
ingredient unchanged (the error is caught, and the function is total so
nothing propagates); on success it returns the response text with
surrounding whitespace trimmed: the result carries no leading or trailing
whitespace and occurs contiguously inside the response. -/
theorem C9_normalizer_degradation (ingredient content : String) :
    processIngredientDescription ingredient (Except.error ()) = ingredient
    ∧ processIngredientDescription ingredient (Except.ok content) = jsTrim content
    ∧ (((jsTrim content).toList.head?).all (fun c => !jsIsSpace c) = true)
    ∧ (((jsTrim content).toList.getLast?).all (fun c => !jsIsSpace c) = true)
    ∧ ∃ s1 s2, content.toList = s1 ++ (jsTrim content).toList ++ s2 := by
  refine ⟨rfl, rfl, ?_, ?_, ?_⟩
  · exact jsTrimList_head content.toList
  · exact jsTrimList_last content.toList
  · obtain ⟨s1, s2, hsplit, -, -⟩ := jsTrimList_split content.toList
    exact ⟨s1, s2, hsplit⟩

theorem excludeFilterJson_strs (excl : List String) (m : List String) :
    excludeFilterJson excl (m.map Json.str)
      = Except.ok ((m.filter
          (fun i => !shouldExcludeIngredient excl i)).map Json.str) := by
  induction m with
  | nil => rfl
  | cons a m ih =>
    show (excludeFilterJson excl (m.map Json.str)).map
        (fun r => if shouldExcludeIngredient excl a then r else .str a :: r)
      = _
    rw [ih]
    by_cases h : shouldExcludeIngredient excl a = true
    · simp [Except.map, List.filter_cons, h]
    · simp [Except.map, List.filter_cons, h]

/-- C7: over string ingredient lists, the two filter passes of the
extractor keep, in input order, exactly the non-empty ingredients whose
lowercased text contains no lowercased entry of the exclusion set as a
substring; the exclusion test depends only on the lowercase image of the
ingredient, so casing of either string never matters. -/
theorem C7_exclusion_filter (excl : List String) (l : List String) (s t : String)
    (hcase : jsToLower s = jsToLower t) :
    filterIngredientsStage excl (l.map Json.str)
      = Except.ok ((l.filter (fun i => decide (i.length ≠ 0)
            && !(excl.any (fun e =>
                 listContainsSub (jsToLower i).toList (jsToLower e).toList)))).map
          Json.str)
    ∧ shouldExcludeIngredient excl s = shouldExcludeIngredient excl t := by
  constructor
  · unfold filterIngredientsStage
    rw [List.filter_map, excludeFilterJson_strs, List.filter_filter]
    have hpred : (fun a : String =>
          !shouldExcludeIngredient excl a && (truthyNonEmpty ∘ Json.str) a)
        = (fun i : String => decide (i.length ≠ 0)
            && !(excl.any (fun e =>
                 listContainsSub (jsToLower i).toList (jsToLower e).toList))) := by
      funext a
      rw [Bool.and_comm]
      rfl
    rw [hpred]
  · show (excl.any (fun excluded =>
        listContainsSub (jsToLower s).toList (jsToLower excluded).toList))
      = (excl.any (fun excluded =>
        listContainsSub (jsToLower t).toList (jsToLower excluded).toList))
    rw [hcase]

/-- C7 witness: the exclusion entry salt removes the capitalised sea salt
ingredient and the empty string while keeping the others in order. -/
theorem C7_witness :
    filterIngredientsStage ["salt"]
        ((["500g vetemjol", "", "Havssalt flingor", "1 burk tomater"] :
          List String).map Json.str)
      = Except.ok (((["500g vetemjol", "", "Havssalt flingor",
            "1 burk tomater"] : List String).filter
          (fun i => decide (i.length ≠ 0)
            && !((["salt"] : List String).any (fun e =>
                 listContainsSub (jsToLower i).toList (jsToLower e).toList)))).map
          Json.str)
    ∧ shouldExcludeIngredient ["salt"] "SALT"
        = shouldExcludeIngredient ["salt"] "salt" :=
  C7_exclusion_filter ["salt"]
    ["500g vetemjol", "", "Havssalt flingor", "1 burk tomater"]
    "SALT" "salt" (by decide)

/-- C6 counterexample: the candidate weight parser is not the Measurement
Parser applied to the requirement text: on the displayVolume text 2 kilo
the candidate pattern, which only accepts the unit spellings g and kg,
finds nothing and the candidate weight is 0, while the requirement
pattern parses 2000 grams. -/
theorem C6_counterexample :
    productWeight (some "2 kilo") ≠ (parseReqWeight "2 kilo").getD 0
    ∧ productWeight (some "2 kilo") = 0
    ∧ parseReqWeight "2 kilo" = some 2000 := by
  refine ⟨?_, ?_, ?_⟩
  · with_unfolding_all decide
  · with_unfolding_all rfl
  · with_unfolding_all rfl

/-- C6 amended: candidate weights come from a restricted pattern, an
integer value followed by g or kg only (case-insensitive, optional
whitespace, kg times 1000, missing or unparseable displayVolume giving
0), while the requirement text is parsed with the full pattern that also
accepts decimals and the spellings gram and kilo; the two parsers agree
on the pair 2kg and 2000g, both being unit-invariant there with value
2000 grams, but differ for example on 2 kilo (0 against 2000) and on
2.5 kg (5000 against 2500, the candidate pattern matching the 5). -/
theorem C6_weight_parsers :
    productWeight (some "2kg") = 2000
    ∧ productWeight (some "2000g") = 2000
    ∧ parseReqWeight "2kg" = some 2000
    ∧ parseReqWeight "2000g" = some 2000
    ∧ productWeight none = 0
    ∧ productWeight (some "utan vikt") = 0
    ∧ productWeight (some "2 kilo") = 0
    ∧ productWeight (some "2.5 kg") = 5000
    ∧ parseReqWeight "2.5 kg" = some 2500 := by
  refine ⟨?_, ?_, ?_, ?_, ?_, ?_, ?_, ?_, ?_⟩ <;> with_unfolding_all rfl

theorem isRecipeTop_of_ne_null (j : Json) (h : j ≠ Json.null) :
    isRecipeTop j = Except.ok (isRecipeTopSpec j) := by
  cases j with
  | null => exact absurd rfl h
  | bool b => rfl
  | num q => rfl
  | str a => rfl
  | arr xs => rfl
  | obj kvs => rfl

theorem topScan_of_no_null (blocks : List Json) (h : Json.null ∉ blocks) :
    topScan blocks = Except.ok (blocks.find? isRecipeTopSpec) := by
  induction blocks with
  | nil => rfl
  | cons b rest ih =>
    have hb : b ≠ Json.null := by
      intro hb
      exact h (hb ▸ List.mem_cons_self b rest)
    have hrest : Json.null ∉ rest := fun hm => h (List.mem_cons_of_mem b hm)
    show (do
        if (← isRecipeTop b) then pure (some b) else topScan rest)
      = Except.ok ((b :: rest).find? isRecipeTopSpec)
    rw [isRecipeTop_of_ne_null b hb]
    by_cases hv : isRecipeTopSpec b = true
    · rw [List.find?_cons_of_pos _ hv, hv]
      show (if (true : Bool) = true then (pure (some b) : Except Unit (Option Json))
          else topScan rest) = Except.ok (some b)
      rw [if_pos rfl]
      rfl
    · rw [List.find?_cons_of_neg _ (by simpa using hv), ← ih hrest]
      rw [Bool.not_eq_true] at hv
      rw [hv]
      show (if (false : Bool) = true then (pure (some b) : Except Unit (Option Json))
          else topScan rest) = topScan rest
      rw [if_neg (by simp)]

/-- C8 counterexample: a parsed null block ahead of a well-formed Recipe
block makes the top-level scan throw (reading the type discriminator of
null), so the extraction aborts to the empty list even though the spec
scan locates the Recipe block and its non-empty ingredient list. -/
theorem C8_counterexample :
    extractIngredientsFromBlocks ["salt"] [Json.null, recipeBlockEx] = []
    ∧ findRecipeData [Json.null, recipeBlockEx] = Except.error ()
    ∧ findRecipeDataSpec [Json.null, recipeBlockEx] = some recipeBlockEx
    ∧ extractIngredients recipeBlockEx = [Json.str "vetemjol"]
    ∧ extractIngredientsFromBlocks ["salt"] [recipeBlockEx]
        = [Json.str "vetemjol"] := by
  refine ⟨?_, ?_, ?_, ?_, ?_⟩ <;> with_unfolding_all rfl

/-- C8 amended: provided no parsed block is the null value (a null block
reached by the top-level scan throws, aborting the extraction to the
empty result), findRecipeData realises the described search: the first
top-level block whose type discriminator equals Recipe or is an array
containing Recipe, and only when none exists the first object-valued
property one level deep whose discriminator equals Recipe; the located
object yields the recipeIngredient field when it is an array, else the
ingredients field when that is an array, else nothing, and the extraction
returns the empty sequence when no Recipe object is found. -/
theorem C8_recipe_location (blocks : List Json) (excl : List String) (rd : Json)
    (hnull : Json.null ∉ blocks) :
    findRecipeData blocks = Except.ok (findRecipeDataSpec blocks)
    ∧ (findRecipeDataSpec blocks = none →
        extractIngredientsFromBlocks excl blocks = [])
    ∧ (match getProp rd "recipeIngredient" with
       | some (.arr xs) => extractIngredients rd = xs
       | _ =>
         match getProp rd "ingredients" with
         | some (.arr ys) => extractIngredients rd = ys
         | _ => extractIngredients rd = []) := by
  have hfind : findRecipeData blocks = Except.ok (findRecipeDataSpec blocks) := by
    show (do
        match ← topScan blocks with
        | some b => pure (some b)
        | none => pure (nestedScan blocks))
      = Except.ok (findRecipeDataSpec blocks)
    rw [topScan_of_no_null blocks hnull]
    unfold findRecipeDataSpec
    cases blocks.find? isRecipeTopSpec with
    | none => rfl
    | some b => rfl
  refine ⟨hfind, ?_, ?_⟩
  · intro hspec
    unfold extractIngredientsFromBlocks
    rw [hfind, hspec]
    rfl
  · unfold extractIngredients
    cases h1 : getProp rd "recipeIngredient" with
    | some v =>
      cases v
      case arr xs => simp
      all_goals
        cases h2 : getProp rd "ingredients" with
        | some w => cases w <;> simp
        | none => simp
    | none =>
      cases h2 : getProp rd "ingredients" with
      | some w => cases w <;> simp
      | none => simp

/-- C8 witness: a single well-formed Recipe block with one ingredient. -/
theorem C8_witness :
    findRecipeData [recipeBlockEx]
        = Except.ok (findRecipeDataSpec [recipeBlockEx])
    ∧ (findRecipeDataSpec [recipeBlockEx] = none →
        extractIngredientsFromBlocks ["salt"] [recipeBlockEx] = [])
    ∧ (match getProp recipeBlockEx "recipeIngredient" with
       | some (.arr xs) => extractIngredients recipeBlockEx = xs
       | _ =>
         match getProp recipeBlockEx "ingredients" with
         | some (.arr ys) => extractIngredients recipeBlockEx = ys
         | _ => extractIngredients recipeBlockEx = []) :=
  C8_recipe_location [recipeBlockEx] ["salt"] recipeBlockEx
    (by intro h; simp [recipeBlockEx] at h)

end HemkopSpec

